import Mathlib

/-!
# Verification of the Co-Sight Plan/Act orchestration kernel

Shallow embedding of the parts of the Co-Sight repository needed to settle
the frozen claims:

* `src/app/manus/task/todolist.py` — the `Plan` class (steps keyed by their
  description string, statuses, notes, details, tool history, dependency
  adjacency table with integer keys).
* `src/app/cosight/llm/chat_llm.py` — the `ChatLLM` client (token
  estimation, message grouping, emergency truncation, context compression,
  message-history truncation, retry loop, tool-argument repair).
* `src/app/manus/agent/actor/task_actor_agent.py` — `TaskActorAgent.act`.

Python dictionaries are modelled as association lists with in-place update
(`dictSet`), preserving insertion order and key uniqueness.  A Python value
that may be `None` is modelled as an `Option`; `d.get(k)` (which returns
`None` both for a missing key and for a stored `None`) is `pyGet`.
External effects (LLM completions, the `WORKSPACE_PATH`-dependent note
rewriting of `process_text_with_workspace`, the wall clock) are passed in
as explicit function parameters.  Step indices are modelled as naturals;
Python raising `IndexError`/`ValueError`/`TypeError` is modelled with
`Except`.
-/

namespace CoSight

/-- Python `dict` assignment `d[k] = v` on an association list: replaces the
value in place if the key is present (keeping its position), otherwise
appends the binding at the end, exactly like CPython insertion order. -/
def dictSet {κ α : Type} [DecidableEq κ] : List (κ × α) → κ → α → List (κ × α)
  | [], k, v => [(k, v)]
  | (k₀, v₀) :: rest, k, v =>
      if k₀ = k then (k, v) :: rest else (k₀, v₀) :: dictSet rest k v

/-- Python `k in d` / `d[k]` lookup on an association list. -/
def dictGet {κ α : Type} [DecidableEq κ] : List (κ × α) → κ → Option α
  | [], _ => none
  | (k₀, v₀) :: rest, k => if k₀ = k then some v₀ else dictGet rest k

/-- Python `d.get(k)` on a dict whose stored values may themselves be `None`:
returns `none` both when the key is missing and when the stored value is
`none`, exactly like CPython where both cases yield `None`. -/
def pyGet {κ : Type} [DecidableEq κ] (d : List (κ × Option String)) (k : κ) :
    Option String :=
  (dictGet d k).join

theorem dictGet_dictSet {κ α : Type} [DecidableEq κ]
    (d : List (κ × α)) (k : κ) (v : α) (k' : κ) :
    dictGet (dictSet d k v) k' = if k' = k then some v else dictGet d k' := by
  induction d with
  | nil =>
      simp only [dictSet, dictGet]
      by_cases h : k' = k
      · rw [if_pos h.symm, if_pos h]
      · rw [if_neg (fun hh => h hh.symm), if_neg h]
  | cons hd tl ih =>
      obtain ⟨k₀, v₀⟩ := hd
      simp only [dictSet]
      by_cases h0 : k₀ = k
      · subst h0
        simp only [if_pos rfl, dictGet]
        by_cases h : k' = k₀
        · rw [if_pos h.symm, if_pos h]
        · have h2 : ¬ k₀ = k' := fun hh => h hh.symm
          simp only [if_neg h2, if_neg h]
      · simp only [if_neg h0, dictGet, ih]
        by_cases h1 : k₀ = k'
        · have hk : ¬ k' = k := fun hh => h0 (h1.trans hh)
          simp only [if_pos h1, if_neg hk]
        · simp only [if_neg h1]

/-- Value of `d.get k` after a `dictSet`. -/
theorem pyGet_dictSet {κ : Type} [DecidableEq κ]
    (d : List (κ × Option String)) (k : κ) (v : Option String) (k' : κ) :
    pyGet (dictSet d k v) k' = if k' = k then v else pyGet d k' := by
  simp only [pyGet, dictGet_dictSet]
  by_cases h : k' = k <;> simp [h]

instance {ε α : Type} [DecidableEq ε] [DecidableEq α] : DecidableEq (Except ε α) :=
  fun a b =>
    match a, b with
    | .ok x, .ok y =>
        if h : x = y then isTrue (congrArg Except.ok h)
        else isFalse (fun hc => h (Except.ok.inj hc))
    | .error x, .error y =>
        if h : x = y then isTrue (congrArg Except.error h)
        else isFalse (fun hc => h (Except.error.inj hc))
    | .ok _, .error _ => isFalse (fun hc => Except.noConfusion hc)
    | .error _, .ok _ => isFalse (fun hc => Except.noConfusion hc)

/-- One entry of a step tool-execution history
(`todolist.py`, `record_tool_execution`): the claims under verification
only move these records around, so the record is kept abstract apart from
its fields being plain data. -/
structure ToolRecord where
  tool_id : String
  tool : String
  args : String
  result : String
  timestamp : String
deriving DecidableEq, Repr

/-- The `Plan` object of `src/app/manus/task/todolist.py`.  Statuses,
notes, details, files and tool histories are dictionaries keyed by the
step description string (the Python comment in `__init__` says exactly
that).  `dependencies` is the integer-keyed adjacency table. -/
structure Plan where
  title : String
  steps : List String
  step_statuses : List (String × Option String)
  step_notes : List (String × Option String)
  step_details : List (String × Option String)
  step_files : List (String × Option String)
  step_tools : List (String × List ToolRecord)
  facts : String
  dependencies : List (Nat × List Nat)
  result : String
deriving DecidableEq, Repr

/-- `{i: [i - 1] for i in range(1, n)} if n > 1 else {}` — the default
linear-chain dependency table built both by `Plan.__init__` and by the
final branch of `Plan.update`. -/
def defaultChainDependencies (n : Nat) : List (Nat × List Nat) :=
  if n > 1 then (List.range' 1 (n - 1)).map (fun i => (i, [i - 1])) else []

/-- `Plan.__init__(title, steps, dependencies)`.  `steps if steps else []`
is the identity on a present list (an empty list stays empty), so only the
`None` case needs care; `if dependencies:` is false both for `None` and for
an empty dict. -/
def Plan.init (title : String) (steps : Option (List String))
    (dependencies : Option (List (Nat × List Nat))) : Plan :=
  let stepsL := match steps with
    | none => []
    | some l => l
  { title := title
    steps := stepsL
    step_statuses := stepsL.foldl (fun d s => dictSet d s (some "not_started")) []
    step_notes := stepsL.foldl (fun d s => dictSet d s (some "")) []
    step_details := stepsL.foldl (fun d s => dictSet d s (some "")) []
    step_files := stepsL.foldl (fun d s => dictSet d s (some "")) []
    step_tools := stepsL.foldl (fun d s => dictSet d s []) []
    facts := ""
    dependencies := match dependencies with
      | some d => if d ≠ [] then d else defaultChainDependencies stepsL.length
      | none => defaultChainDependencies stepsL.length
    result := "" }

/-- `Plan.get_ready_steps`: the loop `for step_index in range(len(self.steps))`
appending `step_index` when every dependency's status (looked up through the
step description, `self.step_statuses.get(self.steps[dep])`) differs from
`"not_started"` and the step itself has status `"not_started"`.
`self.dependencies.get(step_index, [])` is `(dictGet _ _).getD []`.
Python would raise `IndexError` on a dependency index outside
`range(len(steps))`; the claims only consider in-range dependency tables,
under which `List.getD` agrees with Python indexing. -/
def Plan.get_ready_steps (p : Plan) : List Nat :=
  (List.range p.steps.length).foldl
    (fun ready_steps step_index =>
      let dependencies := (dictGet p.dependencies step_index).getD []
      if dependencies.all
          (fun dep => decide (pyGet p.step_statuses (p.steps.getD dep "") ≠ some "not_started")) then
        if pyGet p.step_statuses (p.steps.getD step_index "") = some "not_started" then
          ready_steps ++ [step_index]
        else ready_steps
      else ready_steps)
    []

/-- The status of the step at index `i`, as the Python code observes it:
`step_statuses.get(steps[i])`. -/
def Plan.statusAt (p : Plan) (i : Nat) : Option String :=
  pyGet p.step_statuses (p.steps.getD i "")

/-- The dependency list of step `i`: `self.dependencies.get(step_index, [])`. -/
def Plan.depsAt (p : Plan) (i : Nat) : List Nat :=
  (dictGet p.dependencies i).getD []

/-- A fold that conditionally appends singletons is a filter. -/
theorem foldl_append_filter {α : Type} (f : α → Bool) :
    ∀ (l acc : List α),
      l.foldl (fun a i => if f i then a ++ [i] else a) acc = acc ++ l.filter f := by
  intro l
  induction l with
  | nil => intro acc; simp
  | cons hd tl ih =>
      intro acc
      cases h : f hd <;> simp [List.foldl_cons, h, ih, List.filter_cons]

/-- The Boolean readiness test applied to index `i` by the loop body of
`get_ready_steps`. -/
def Plan.readyTest (p : Plan) (i : Nat) : Bool :=
  (p.depsAt i).all (fun dep => decide (p.statusAt dep ≠ some "not_started")) &&
    decide (p.statusAt i = some "not_started")

theorem if_if_and {α : Type} (A B : Prop) [Decidable A] [Decidable B] (x y : α) :
    (if A then (if B then x else y) else y) = if A ∧ B then x else y := by
  by_cases hA : A <;> by_cases hB : B <;> simp [hA, hB]

theorem Plan.get_ready_steps_eq_filter (p : Plan) :
    p.get_ready_steps = (List.range p.steps.length).filter p.readyTest := by
  unfold Plan.get_ready_steps
  rw [List.foldl_ext _ (fun a i => if p.readyTest i then a ++ [i] else a)]
  · exact foldl_append_filter _ _ _
  · intro a i _
    rw [if_if_and]
    refine if_congr ?_ rfl rfl
    simp [Plan.readyTest, Plan.depsAt, Plan.statusAt, Bool.and_eq_true,
      decide_eq_true_eq]

/-- C1: `get_ready_steps` returns exactly the indices `i`, in increasing
index order, whose own status is `not_started` and all of whose listed
dependencies have a status different from `not_started` (the hypothesis
keeps every listed dependency index in range, as the claim assumes; Python
would raise `IndexError` otherwise). -/
theorem Plan.get_ready_steps_exact (p : Plan)
    (hdep : ∀ i, i < p.steps.length → ∀ d ∈ p.depsAt i, d < p.steps.length) :
    List.Pairwise (· < ·) p.get_ready_steps ∧
      ∀ i, i ∈ p.get_ready_steps ↔
        i < p.steps.length ∧ p.statusAt i = some "not_started" ∧
          ∀ d ∈ p.depsAt i, p.statusAt d ≠ some "not_started" := by
  have hfilter := p.get_ready_steps_eq_filter
  constructor
  · rw [hfilter]
    exact (List.pairwise_lt_range p.steps.length).sublist (List.filter_sublist _)
  · intro i
    rw [hfilter, List.mem_filter, List.mem_range]
    unfold Plan.readyTest
    constructor
    · rintro ⟨hi, hb⟩
      simp only [Bool.and_eq_true, List.all_eq_true, decide_eq_true_eq] at hb
      exact ⟨hi, hb.2, hb.1⟩
    · rintro ⟨hi, hst, hdeps⟩
      refine ⟨hi, ?_⟩
      simp only [Bool.and_eq_true, List.all_eq_true, decide_eq_true_eq]
      exact ⟨hdeps, hst⟩

/-- Witness for C1 on a concrete plan: two steps, default chain dependency
`{1: [0]}`, everything `not_started`; only step 0 is ready. -/
theorem Plan.get_ready_steps_exact_witness :
    (∀ i, i < (Plan.init "t" (some ["a", "b"]) none).steps.length →
        ∀ d ∈ (Plan.init "t" (some ["a", "b"]) none).depsAt i,
          d < (Plan.init "t" (some ["a", "b"]) none).steps.length) ∧
      (List.Pairwise (· < ·) (Plan.init "t" (some ["a", "b"]) none).get_ready_steps ∧
        ∀ i, i ∈ (Plan.init "t" (some ["a", "b"]) none).get_ready_steps ↔
          i < (Plan.init "t" (some ["a", "b"]) none).steps.length ∧
            (Plan.init "t" (some ["a", "b"]) none).statusAt i = some "not_started" ∧
            ∀ d ∈ (Plan.init "t" (some ["a", "b"]) none).depsAt i,
              (Plan.init "t" (some ["a", "b"]) none).statusAt d ≠ some "not_started") :=
  ⟨by decide, Plan.get_ready_steps_exact _ (by decide)⟩

/-- `Plan.mark_step(step_index, step_status, step_notes)`.  The Python code
validates the index (`raise ValueError` outside `0 ≤ i < len(steps)`; the
lower bound is vacuous for naturals), keys the writes by the step
description `self.steps[step_index]`, and, when notes are given, pipes them
through `process_text_with_workspace` before storing them (together with
the extracted file-path info) — that helper depends on the `WORKSPACE_PATH`
environment variable and regex rewriting, so it is passed in as the
explicit parameter `processText`, its file-info component rendered as an
opaque string. -/
def Plan.mark_step (p : Plan) (processText : String → String × String)
    (step_index : Nat) (step_status : Option String) (step_notes : Option String) :
    Except String Plan :=
  if step_index ≥ p.steps.length then
    .error "ValueError: Invalid step_index"
  else
    let step := p.steps.getD step_index ""
    let p1 := match step_status with
      | some st => { p with step_statuses := dictSet p.step_statuses step (some st) }
      | none => p
    match step_notes with
    | some notes =>
        let processed := processText notes
        .ok { p1 with
          step_notes := dictSet p1.step_notes step (some processed.1)
          step_files := dictSet p1.step_files step (some processed.2) }
    | none => .ok p1

/-- Accumulator of the steps-preservation loop of `Plan.update`: the lists
`new_steps`, `new_statuses`, `new_notes`, `new_details`, `new_tools` built
up by the single `for step in steps` pass. -/
structure UpdateAcc where
  new_steps : List String
  new_statuses : List (String × Option String)
  new_notes : List (String × Option String)
  new_details : List (String × Option String)
  new_tools : List (String × List ToolRecord)

/-- One iteration of the `for step in steps` loop of `Plan.update`.  The
branch conditions read only the pre-update plan `p` (the Python loop reads
`self.steps` / `self.step_statuses`, which are reassigned only after the
loop), so they are constant across iterations. -/
def Plan.updateStepFold (p : Plan) (acc : UpdateAcc) (step : String) : UpdateAcc :=
  if step ∈ p.steps ∧ pyGet p.step_statuses step ≠ some "not_started" then
    { new_steps := acc.new_steps ++ [step]
      new_statuses := dictSet acc.new_statuses step (pyGet p.step_statuses step)
      new_notes := dictSet acc.new_notes step (pyGet p.step_notes step)
      new_details := dictSet acc.new_details step (pyGet p.step_details step)
      new_tools := dictSet acc.new_tools step ((dictGet p.step_tools step).getD []) }
  else if step ∈ p.steps then
    { new_steps := acc.new_steps ++ [step]
      new_statuses := dictSet acc.new_statuses step (some "not_started")
      new_notes := dictSet acc.new_notes step (pyGet p.step_notes step)
      new_details := dictSet acc.new_details step (pyGet p.step_details step)
      new_tools := dictSet acc.new_tools step [] }
  else
    { new_steps := acc.new_steps ++ [step]
      new_statuses := dictSet acc.new_statuses step (some "not_started")
      new_notes := dictSet acc.new_notes step (some "")
      new_details := dictSet acc.new_details step (some "")
      new_tools := dictSet acc.new_tools step [] }

/-- `{int(k): v for k, v in dependencies.items()}` followed by
`self.dependencies.clear(); self.dependencies.update(...)`: rebuilding the
dict deduplicates keys (`int(k)` is the identity on our natural-number
keys). -/
def dictNormalize {κ α : Type} [DecidableEq κ] (d : List (κ × α)) : List (κ × α) :=
  d.foldl (fun acc kv => dictSet acc kv.1 kv.2) []

/-- `Plan.update(title, steps, dependencies)`.  `if title:` and
`if steps:` and `if dependencies:` are Python truthiness tests (false for
`None`, `""`, `[]`, `{}`).  When both `steps` and `dependencies` are
`None`, the final branch evaluates `len(steps)` on `None` and raises
`TypeError`.  (Python mutates `self` in place, so fields assigned before
the `TypeError` — the title — stay changed on the real object; the claims
under verification only concern whether the call raises, which the
`Except` result captures.) -/
def Plan.applyTitle (p : Plan) (title : Option String) : Plan :=
  match title with
  | some t => if t ≠ "" then { p with title := t } else p
  | none => p

/-- The reassignment of `self.steps`, `self.step_statuses`,
`self.step_notes`, `self.step_details`, `self.step_tools` after the
`for step in steps` loop of `Plan.update` (note that `self.step_files` is
left untouched by `update`). -/
def Plan.applySteps (p : Plan) (l : List String) : Plan :=
  let acc := l.foldl (Plan.updateStepFold p) ⟨[], [], [], [], []⟩
  { p with
    steps := acc.new_steps
    step_statuses := acc.new_statuses
    step_notes := acc.new_notes
    step_details := acc.new_details
    step_tools := acc.new_tools }

def Plan.update (p : Plan) (title : Option String) (steps : Option (List String))
    (dependencies : Option (List (Nat × List Nat))) : Except String Plan :=
  let p1 := p.applyTitle title
  let p2 := match steps with
    | some l => if l ≠ [] then p1.applySteps l else p1
    | none => p1
  match dependencies with
  | some d =>
      if d ≠ [] then .ok { p2 with dependencies := dictNormalize d }
      else
        match steps with
        | some l => .ok { p2 with dependencies := defaultChainDependencies l.length }
        | none => .error "TypeError: object of type NoneType has no len()"
  | none =>
      match steps with
      | some l => .ok { p2 with dependencies := defaultChainDependencies l.length }
      | none => .error "TypeError: object of type NoneType has no len()"

/-- C10: a title-only `update` (steps and dependencies both omitted) always
raises `TypeError`, because the default-dependency branch evaluates
`len(None)`. -/
theorem Plan.update_title_only_raises (p : Plan) (t : String) :
    p.update (some t) none none
      = .error "TypeError: object of type NoneType has no len()" :=
  rfl

/-- Counterexample to C2: a dependencies mapping in which steps 0 and 1
each depend on the other is accepted by `update` and installed verbatim —
there is no `CyclicDependency` (nor any other) rejection anywhere in
`Plan.update`. -/
theorem Plan.update_accepts_cyclic_dependencies :
    ((Plan.init "t" (some ["a", "b"]) none).update none none
        (some [(0, [1]), (1, [0])])).toOption.map Plan.dependencies
      = some [(0, [1]), (1, [0])] := by
  decide

/-- C2 amended: `Plan.update` performs no validation of the dependencies
mapping.  Any non-empty mapping — cyclic or with out-of-range indices —
is installed as the plan's dependency table (keys deduplicated exactly as
by the `{int(k): v ...}` rebuild). -/
theorem Plan.update_installs_dependencies_unvalidated
    (p : Plan) (d : List (Nat × List Nat)) (hd : d ≠ []) :
    p.update none none (some d) = .ok { p with dependencies := dictNormalize d } := by
  unfold Plan.update Plan.applyTitle
  simp [hd]

/-- Witness for the amended C2: a dependency table whose only entry points
at the out-of-range index 5 is installed unchanged. -/
theorem Plan.update_installs_dependencies_unvalidated_witness :
    ([((0 : Nat), [(5 : Nat)])] ≠ ([] : List (Nat × List Nat))) ∧
      (Plan.init "t" (some ["a", "b"]) none).update none none (some [(0, [5])])
        = .ok { Plan.init "t" (some ["a", "b"]) none with
                  dependencies := dictNormalize [(0, [5])] } :=
  ⟨by decide, Plan.update_installs_dependencies_unvalidated _ _ (by decide)⟩

/-! ### The value written for each step description by the `update` loop -/

/-- The status value the `update` loop stores for a given step description
(branch 1 stores `self.step_statuses.get(step)`, branches 2 and 3 store
`"not_started"`). -/
def Plan.updStatusVal (p : Plan) (step : String) : Option String :=
  if step ∈ p.steps ∧ pyGet p.step_statuses step ≠ some "not_started" then
    pyGet p.step_statuses step
  else some "not_started"

/-- The notes value the `update` loop stores (branches 1 and 2 store
`self.step_notes.get(step)`, branch 3 stores `""`). -/
def Plan.updNotesVal (p : Plan) (step : String) : Option String :=
  if step ∈ p.steps then pyGet p.step_notes step else some ""

/-- The tool-history value the `update` loop stores (branch 1 keeps
`self.step_tools.get(step, [])`, branches 2 and 3 reset to `[]`). -/
def Plan.updToolsVal (p : Plan) (step : String) : List ToolRecord :=
  if step ∈ p.steps ∧ pyGet p.step_statuses step ≠ some "not_started" then
    (dictGet p.step_tools step).getD []
  else []

theorem Plan.updateStepFold_new_statuses (p : Plan) (acc : UpdateAcc) (step : String) :
    (p.updateStepFold acc step).new_statuses
      = dictSet acc.new_statuses step (p.updStatusVal step) := by
  unfold Plan.updateStepFold Plan.updStatusVal
  by_cases h2 : step ∈ p.steps
  · by_cases h3 : pyGet p.step_statuses step = some "not_started"
    · have h1 : ¬ (step ∈ p.steps ∧ pyGet p.step_statuses step ≠ some "not_started") :=
        fun h => h.2 h3
      simp [h1, h2, h3]
    · have h1 : step ∈ p.steps ∧ pyGet p.step_statuses step ≠ some "not_started" := ⟨h2, h3⟩
      simp [h1, h2, h3]
  · have h1 : ¬ (step ∈ p.steps ∧ pyGet p.step_statuses step ≠ some "not_started") :=
      fun h => h2 h.1
    simp [h1, h2]

theorem Plan.updateStepFold_new_notes (p : Plan) (acc : UpdateAcc) (step : String) :
    (p.updateStepFold acc step).new_notes
      = dictSet acc.new_notes step (p.updNotesVal step) := by
  unfold Plan.updateStepFold Plan.updNotesVal
  by_cases h2 : step ∈ p.steps
  · by_cases h3 : pyGet p.step_statuses step = some "not_started"
    · have h1 : ¬ (step ∈ p.steps ∧ pyGet p.step_statuses step ≠ some "not_started") :=
        fun h => h.2 h3
      simp [h1, h2, h3]
    · have h1 : step ∈ p.steps ∧ pyGet p.step_statuses step ≠ some "not_started" := ⟨h2, h3⟩
      simp [h1, h2, h3]
  · have h1 : ¬ (step ∈ p.steps ∧ pyGet p.step_statuses step ≠ some "not_started") :=
      fun h => h2 h.1
    simp [h1, h2]

theorem Plan.updateStepFold_new_tools (p : Plan) (acc : UpdateAcc) (step : String) :
    (p.updateStepFold acc step).new_tools
      = dictSet acc.new_tools step (p.updToolsVal step) := by
  unfold Plan.updateStepFold Plan.updToolsVal
  by_cases h2 : step ∈ p.steps
  · by_cases h3 : pyGet p.step_statuses step = some "not_started"
    · have h1 : ¬ (step ∈ p.steps ∧ pyGet p.step_statuses step ≠ some "not_started") :=
        fun h => h.2 h3
      simp [h1, h2, h3]
    · have h1 : step ∈ p.steps ∧ pyGet p.step_statuses step ≠ some "not_started" := ⟨h2, h3⟩
      simp [h1, h2, h3]
  · have h1 : ¬ (step ∈ p.steps ∧ pyGet p.step_statuses step ≠ some "not_started") :=
      fun h => h2 h.1
    simp [h1, h2]

theorem Plan.foldl_updateStepFold_new_statuses (p : Plan) :
    ∀ (l : List String) (acc : UpdateAcc),
      (l.foldl p.updateStepFold acc).new_statuses
        = l.foldl (fun d s => dictSet d s (p.updStatusVal s)) acc.new_statuses := by
  intro l
  induction l with
  | nil => intro acc; rfl
  | cons hd tl ih =>
      intro acc
      simp only [List.foldl_cons, ih, Plan.updateStepFold_new_statuses]

theorem Plan.foldl_updateStepFold_new_notes (p : Plan) :
    ∀ (l : List String) (acc : UpdateAcc),
      (l.foldl p.updateStepFold acc).new_notes
        = l.foldl (fun d s => dictSet d s (p.updNotesVal s)) acc.new_notes := by
  intro l
  induction l with
  | nil => intro acc; rfl
  | cons hd tl ih =>
      intro acc
      simp only [List.foldl_cons, ih, Plan.updateStepFold_new_notes]

theorem Plan.foldl_updateStepFold_new_tools (p : Plan) :
    ∀ (l : List String) (acc : UpdateAcc),
      (l.foldl p.updateStepFold acc).new_tools
        = l.foldl (fun d s => dictSet d s (p.updToolsVal s)) acc.new_tools := by
  intro l
  induction l with
  | nil => intro acc; rfl
  | cons hd tl ih =>
      intro acc
      simp only [List.foldl_cons, ih, Plan.updateStepFold_new_tools]

/-- Writing `f s` for every key `s` of `l` into a dict: lookup afterwards. -/
theorem dictGet_foldl_dictSet {κ α : Type} [DecidableEq κ] (f : κ → α) :
    ∀ (l : List κ) (d : List (κ × α)) (k : κ),
      dictGet (l.foldl (fun d s => dictSet d s (f s)) d) k
        = if k ∈ l then some (f k) else dictGet d k := by
  intro l
  induction l with
  | nil => intro d k; simp
  | cons hd tl ih =>
      intro d k
      simp only [List.foldl_cons, ih, dictGet_dictSet, List.mem_cons]
      by_cases h1 : k ∈ tl
      · simp [h1]
      · by_cases h2 : k = hd <;> simp [h1, h2]

@[simp] theorem Plan.applyTitle_steps (p : Plan) (t : Option String) :
    (p.applyTitle t).steps = p.steps := by
  unfold Plan.applyTitle
  cases t with
  | none => rfl
  | some s => by_cases h : s ≠ "" <;> simp [h]

@[simp] theorem Plan.applyTitle_step_statuses (p : Plan) (t : Option String) :
    (p.applyTitle t).step_statuses = p.step_statuses := by
  unfold Plan.applyTitle
  cases t with
  | none => rfl
  | some s => by_cases h : s ≠ "" <;> simp [h]

@[simp] theorem Plan.applyTitle_step_notes (p : Plan) (t : Option String) :
    (p.applyTitle t).step_notes = p.step_notes := by
  unfold Plan.applyTitle
  cases t with
  | none => rfl
  | some s => by_cases h : s ≠ "" <;> simp [h]

@[simp] theorem Plan.applyTitle_step_tools (p : Plan) (t : Option String) :
    (p.applyTitle t).step_tools = p.step_tools := by
  unfold Plan.applyTitle
  cases t with
  | none => rfl
  | some s => by_cases h : s ≠ "" <;> simp [h]

/-- When `update` is called with a step list and returns normally, the
status/notes/tools dictionaries of the result are those computed by the
steps-preservation loop (the dependency branch only replaces
`dependencies`). -/
theorem Plan.update_ok_dicts (p : Plan) (title : Option String) (ns : List String)
    (deps : Option (List (Nat × List Nat))) (q : Plan)
    (hq : p.update title (some ns) deps = .ok q) :
    q.step_statuses
        = (if ns ≠ [] then (p.applyTitle title).applySteps ns
           else p.applyTitle title).step_statuses ∧
      q.step_notes
        = (if ns ≠ [] then (p.applyTitle title).applySteps ns
           else p.applyTitle title).step_notes ∧
      q.step_tools
        = (if ns ≠ [] then (p.applyTitle title).applySteps ns
           else p.applyTitle title).step_tools := by
  unfold Plan.update at hq
  rcases deps with _ | d
  · dsimp only at hq
    injection hq with h
    subst h
    exact ⟨rfl, rfl, rfl⟩
  · dsimp only at hq
    by_cases hd : d ≠ []
    · rw [if_pos hd] at hq
      injection hq with h
      subst h
      exact ⟨rfl, rfl, rfl⟩
    · rw [if_neg hd] at hq
      injection hq with h
      subst h
      exact ⟨rfl, rfl, rfl⟩

/-- C3: after `update(title, steps, deps)`, every step description present
in both the old and the new step lists whose old status was not
`not_started` keeps its status, notes, and tool-execution history, and
every description not previously in the plan starts as `not_started`. -/
theorem Plan.update_preserves_started_steps (p : Plan) (title : Option String)
    (ns : List String) (deps : Option (List (Nat × List Nat))) (q : Plan)
    (hq : p.update title (some ns) deps = .ok q) :
    (∀ s, s ∈ p.steps → s ∈ ns → pyGet p.step_statuses s ≠ some "not_started" →
        pyGet q.step_statuses s = pyGet p.step_statuses s ∧
        pyGet q.step_notes s = pyGet p.step_notes s ∧
        dictGet q.step_tools s = some ((dictGet p.step_tools s).getD [])) ∧
      ∀ s, s ∈ ns → s ∉ p.steps → pyGet q.step_statuses s = some "not_started" := by
  obtain ⟨hst, hno, hto⟩ := Plan.update_ok_dicts p title ns deps q hq
  by_cases hns : ns ≠ []
  · rw [if_pos hns] at hst hno hto
    have hp1 := p.applyTitle_steps title
    have hp1s := p.applyTitle_step_statuses title
    have hp1n := p.applyTitle_step_notes title
    have hp1t := p.applyTitle_step_tools title
    constructor
    · intro s hsp hsn hstat
      have hcond : s ∈ (p.applyTitle title).steps ∧
          pyGet (p.applyTitle title).step_statuses s ≠ some "not_started" := by
        rw [hp1, hp1s]; exact ⟨hsp, hstat⟩
      refine ⟨?_, ?_, ?_⟩
      · rw [hst]
        show pyGet ((p.applyTitle title).applySteps ns).step_statuses s = _
        unfold Plan.applySteps pyGet
        simp only [Plan.foldl_updateStepFold_new_statuses, dictGet_foldl_dictSet,
          if_pos hsn]
        unfold Plan.updStatusVal
        rw [if_pos hcond, hp1s]
        rfl
      · rw [hno]
        show pyGet ((p.applyTitle title).applySteps ns).step_notes s = _
        unfold Plan.applySteps pyGet
        simp only [Plan.foldl_updateStepFold_new_notes, dictGet_foldl_dictSet,
          if_pos hsn]
        unfold Plan.updNotesVal
        rw [if_pos hcond.1, hp1n]
        rfl
      · rw [hto]
        show dictGet ((p.applyTitle title).applySteps ns).step_tools s = _
        unfold Plan.applySteps
        simp only [Plan.foldl_updateStepFold_new_tools, dictGet_foldl_dictSet,
          if_pos hsn]
        unfold Plan.updToolsVal
        rw [if_pos hcond, hp1t]
    · intro s hsn hsp
      rw [hst]
      show pyGet ((p.applyTitle title).applySteps ns).step_statuses s = _
      unfold Plan.applySteps pyGet
      simp only [Plan.foldl_updateStepFold_new_statuses, dictGet_foldl_dictSet,
        if_pos hsn]
      unfold Plan.updStatusVal
      have hcond : ¬ (s ∈ (p.applyTitle title).steps ∧
          pyGet (p.applyTitle title).step_statuses s ≠ some "not_started") := by
        rw [hp1]
        intro h
        exact hsp h.1
      rw [if_neg hcond]
      rfl
  · push_neg at hns
    subst hns
    constructor
    · intro s _ hsn _
      exact absurd hsn (List.not_mem_nil s)
    · intro s hsn _
      exact absurd hsn (List.not_mem_nil s)

/-- A concrete plan for exercising the re-plan preservation: steps
`["a", "b"]`, step `"a"` already `completed` with notes and one tool
record. -/
def planReplanned : Plan :=
  { Plan.init "t" (some ["a", "b"]) none with
      step_statuses := [("a", some "completed"), ("b", some "not_started")]
      step_notes := [("a", some "done"), ("b", some "")]
      step_tools := [("a", [⟨"id", "tool", "args", "res", "ts"⟩]), ("b", [])] }

/-- The concrete result of re-planning `planReplanned` to `["a", "c"]`. -/
def planReplannedResult : Plan :=
  (planReplanned.update (some "t2") (some ["a", "c"]) none).toOption.getD planReplanned

/-- Witness for C3: re-planning the concrete plan keeps the `completed`
step `"a"` with its notes and tool history, and starts the fresh step
`"c"` as `not_started`. -/
theorem Plan.update_preserves_started_steps_witness :
    (planReplanned.update (some "t2") (some ["a", "c"]) none
        = .ok planReplannedResult) ∧
      ((∀ s, s ∈ planReplanned.steps → s ∈ ["a", "c"] →
          pyGet planReplanned.step_statuses s ≠ some "not_started" →
          pyGet planReplannedResult.step_statuses s
              = pyGet planReplanned.step_statuses s ∧
            pyGet planReplannedResult.step_notes s
              = pyGet planReplanned.step_notes s ∧
            dictGet planReplannedResult.step_tools s
              = some ((dictGet planReplanned.step_tools s).getD [])) ∧
        ∀ s, s ∈ ["a", "c"] → s ∉ planReplanned.steps →
          pyGet planReplannedResult.step_statuses s = some "not_started") :=
  ⟨by decide,
   Plan.update_preserves_started_steps planReplanned (some "t2") ["a", "c"] none
     planReplannedResult (by decide)⟩

/-- C9: step state is keyed by the description string, so `mark_step(i)`
also changes the observed status and notes of every other index `j` that
carries the same description, and the constructor collapses two steps with
equal descriptions into a single status entry.  Marking one step is not
frame-preserving on same-description steps. -/
theorem Plan.mark_step_aliases_duplicate_descriptions
    (p : Plan) (processText : String → String × String) (i j : Nat)
    (st notes : String) (q : Plan)
    (hij : i ≠ j) (hj : j < p.steps.length)
    (hdup : p.steps.getD i "" = p.steps.getD j "")
    (hq : p.mark_step processText i (some st) (some notes) = .ok q) :
    (q.statusAt j = some st ∧
        pyGet q.step_notes (p.steps.getD j "") = some (processText notes).1) ∧
      ∀ (t s : String),
        (Plan.init t (some [s, s]) none).step_statuses = [(s, some "not_started")] := by
  constructor
  · unfold Plan.mark_step at hq
    by_cases hi : i ≥ p.steps.length
    · rw [if_pos hi] at hq
      exact absurd hq (by simp)
    · rw [if_neg hi] at hq
      dsimp only at hq
      injection hq with h
      subst h
      unfold Plan.statusAt
      constructor
      · show pyGet (dictSet p.step_statuses (p.steps.getD i "") (some st))
            ((p.steps.getD j "")) = some st
        rw [pyGet_dictSet, if_pos hdup.symm]
      · rw [pyGet_dictSet, if_pos hdup.symm]
  · intro t s
    simp [Plan.init, dictSet]

/-- A plan whose two steps carry the same description. -/
def planDup : Plan := Plan.init "t" (some ["dup", "dup"]) none

/-- `planDup` after `mark_step(0, "completed", "note")` (with the identity
workspace rewriting). -/
def planDupMarked : Plan :=
  (planDup.mark_step (fun s => (s, "")) 0 (some "completed") (some "note")).toOption.getD
    planDup

/-- Witness for C9: marking index 0 of `planDup` as `completed` is observed
at index 1 as well, and the constructor produced a single status entry. -/
theorem Plan.mark_step_aliases_duplicate_descriptions_witness :
    ((0 : Nat) ≠ 1 ∧ 1 < planDup.steps.length ∧
        planDup.steps.getD 0 "" = planDup.steps.getD 1 "" ∧
        planDup.mark_step (fun s => (s, "")) 0 (some "completed") (some "note")
          = .ok planDupMarked) ∧
      (planDupMarked.statusAt 1 = some "completed" ∧
          pyGet planDupMarked.step_notes (planDup.steps.getD 1 "")
            = some ((fun (s : String) => (s, "")) "note").1) ∧
        ∀ (t s : String),
          (Plan.init t (some [s, s]) none).step_statuses = [(s, some "not_started")] :=
  ⟨⟨by decide, by decide, by decide, by decide⟩,
   Plan.mark_step_aliases_duplicate_descriptions planDup (fun s => (s, "")) 0 1
     "completed" "note" planDupMarked (by decide) (by decide) (by decide) (by decide)⟩

/-! ## The ChatLLM client (`src/app/cosight/llm/chat_llm.py`)

A chat message is a dict with `role`, `content` and optionally
`tool_calls`.  The history-management code inspects only the truthiness of
`tool_calls` (a non-empty list), so the field is modelled as a `Bool`; the
tool-call argument strings themselves are handled separately for the
argument-repair claim.  The `name` field of tool messages is used only in
log lines and is omitted. -/

structure Message where
  role : String
  content : String
  tool_calls : Bool
deriving DecidableEq, Repr

/-- `'一' <= c <= '鿿'` — the Chinese-character test of
`_estimate_tokens_simple`. -/
def isChineseChar (c : Char) : Bool :=
  decide (0x4e00 ≤ c.toNat ∧ c.toNat ≤ 0x9fff)

/-- The per-message contribution of `_estimate_tokens_simple`:
`chinese_chars / 1.5 + other_chars / 4`.  Python accumulates this in
binary floating point; the embedding uses exact rationals, which agree on
every input used below. -/
def messageChars (m : Message) : ℚ :=
  let chinese : ℚ := (m.content.toList.countP isChineseChar : ℚ)
  let other : ℚ := ((m.content.toList.length : ℚ) - chinese)
  chinese / (1.5 : ℚ) + other / (4 : ℚ)

/-- `_estimate_tokens_simple(messages)`:
`int(total_chars) + len(messages) * 4` (the deterministic fallback of
`_count_tokens`, which the client uses whenever `tiktoken` is not
importable; the tiktoken path depends on an external tokenizer and is not
part of the embedding).  This is the direct transliteration of the Python
accumulation; `countTokens` below is the same function in plain natural
arithmetic (`countTokens_eq_estimateTokensSimple`), which the rest of the
embedding uses so that concrete runs are kernel-computable. -/
def estimateTokensSimple (messages : List Message) : Nat :=
  (messages.foldl (fun total m => total + messageChars m) 0).floor.toNat
    + messages.length * 4

/-- Number of Chinese characters of a message content. -/
def chineseCount (m : Message) : Nat := m.content.toList.countP isChineseChar

/-- Number of non-Chinese characters of a message content. -/
def otherCount (m : Message) : Nat := m.content.toList.length - chineseCount m

/-- `chinese / 1.5 + other / 4` over the common denominator 12:
`(8 * chinese + 3 * other) / 12`. -/
def messageWeight (m : Message) : Nat := 8 * chineseCount m + 3 * otherCount m

/-- `_estimate_tokens_simple` in exact natural arithmetic. -/
def countTokens (messages : List Message) : Nat :=
  (messages.map messageWeight).sum / 12 + messages.length * 4

theorem tokenFold_eq_sum (l : List Message) :
    ∀ init : ℚ, l.foldl (fun total m => total + messageChars m) init
      = init + (l.map messageChars).sum := by
  induction l with
  | nil => intro init; simp
  | cons hd tl ih =>
      intro init
      simp only [List.foldl_cons, ih, List.map_cons, List.sum_cons]
      ring

theorem ratFloor_eq_intFloor (q : ℚ) : q.floor = ⌊q⌋ := by
  rw [Rat.floor_def', Rat.floor_def]

theorem messageChars_eq_weight (m : Message) :
    messageChars m = ((messageWeight m : ℕ) : ℚ) / 12 := by
  have hle : m.content.toList.countP isChineseChar ≤ m.content.toList.length :=
    List.countP_le_length _
  simp only [messageChars, messageWeight, chineseCount, otherCount]
  push_cast [hle]
  rw [show (1.5 : ℚ) = 3 / 2 by norm_num]
  ring

theorem messageChars_sum_eq (l : List Message) :
    (l.map messageChars).sum = (((l.map messageWeight).sum : ℕ) : ℚ) / 12 := by
  induction l with
  | nil => simp
  | cons hd tl ih =>
      simp only [List.map_cons, List.sum_cons, ih, messageChars_eq_weight]
      push_cast
      ring

/-- Fidelity of the natural-arithmetic token estimate: it agrees with the
transliterated `_estimate_tokens_simple` on every message list. -/
theorem countTokens_eq_estimateTokensSimple (l : List Message) :
    countTokens l = estimateTokensSimple l := by
  unfold countTokens estimateTokensSimple
  rw [tokenFold_eq_sum, zero_add, messageChars_sum_eq, ratFloor_eq_intFloor]
  generalize (l.map messageWeight).sum = s
  rw [show ((s : ℕ) : ℚ) / 12 = ((s : ℤ) : ℚ) / ((12 : ℕ) : ℚ) by push_cast; ring,
    Rat.floor_intCast_div_natCast]
  omega

/-- The token estimate only depends on the multiset of messages. -/
theorem countTokens_perm {l₁ l₂ : List Message} (h : l₁.Perm l₂) :
    countTokens l₁ = countTokens l₂ := by
  unfold countTokens
  rw [(h.map messageWeight).sum_eq, h.length_eq]

/-- One iteration of the grouping loop of `_build_message_groups`
(state: groups built so far, current group). -/
def groupStep (st : List (List Message) × List Message) (msg : Message) :
    List (List Message) × List Message :=
  let groups := st.1
  let current := st.2
  if msg.role == "assistant" then
    ((if current ≠ [] then groups ++ [current] else groups), [msg])
  else if msg.role == "tool" then
    match current.head? with
    | some h =>
        if h.role == "assistant" then (groups, current ++ [msg])
        else (groups ++ [current], [msg])
    | none => (groups, [msg])
  else
    ((if current ≠ [] then groups ++ [current] else groups), [msg])

/-- `_build_message_groups(messages)`: an `assistant` message starts a new
group, `tool` messages join a current group headed by an `assistant`,
everything else is its own group; the trailing current group is appended
at the end. -/
def buildMessageGroups (messages : List Message) : List (List Message) :=
  let st := messages.foldl groupStep ([], [])
  if st.2 ≠ [] then st.1 ++ [st.2] else st.1

/-- `int(self.max_context_tokens * target_ratio)` with the fixed
`target_ratio=0.9` used by `_compress_context`; Python computes this in
binary floating point, which coincides with `⌊9·n/10⌋` for the default
`128000` and every value used below. -/
def emergencyTarget (maxContextTokens : Nat) : Nat :=
  9 * maxContextTokens / 10

/-- The `for group in reversed(message_groups)` loop of
`_emergency_truncate`: a group is kept when `result + group` still fits the
target, in which case it is re-inserted right after the system messages
(`result = system_messages + group + result[len(system_messages):]`);
the first group that does not fit breaks the loop. -/
def truncLoop (systemMessages : List Message) (targetTokens : Nat) :
    List (List Message) → List Message → List Message
  | [], result => result
  | g :: rest, result =>
      if countTokens (result ++ g) ≤ targetTokens then
        truncLoop systemMessages targetTokens rest
          (systemMessages ++ g ++ result.drop systemMessages.length)
      else result

/-- `ChatLLM._emergency_truncate(messages, target_ratio=0.9)`. -/
def emergencyTruncate (maxContextTokens : Nat) (messages : List Message) :
    List Message :=
  let targetTokens := emergencyTarget maxContextTokens
  if countTokens messages ≤ targetTokens then messages
  else
    let systemMessages := messages.filter (fun m => m.role == "system")
    let nonSystem := messages.filter (fun m => !(m.role == "system"))
    let groups := buildMessageGroups nonSystem
    truncLoop systemMessages targetTokens groups.reverse systemMessages

/-- `ChatLLM._should_compress_context(messages)` as the pair
`(need-compression, current-token-count)`. -/
def shouldCompressContext (compressionEnabled : Bool) (maxContextTokens : Nat)
    (compressionThreshold : ℚ) (messages : List Message) : Bool × Nat :=
  if !compressionEnabled then (false, 0)
  else
    let currentTokens := countTokens messages
    let thresholdTokens := (compressionThreshold * (maxContextTokens : ℚ)).floor.toNat
    if currentTokens ≥ maxContextTokens then (true, currentTokens)
    else if currentTokens ≥ thresholdTokens then (true, currentTokens)
    else (false, currentTokens)

/-- The first stage of `ChatLLM._compress_context`: emergency truncation is
performed only when the current token count STRICTLY exceeds
`max_context_tokens` (`if current_tokens > self.max_context_tokens`). -/
def compressContextStage1 (maxContextTokens : Nat) (messages : List Message) :
    List Message :=
  if countTokens messages > maxContextTokens then
    emergencyTruncate maxContextTokens messages
  else messages

/-- The configuration fields of `ChatLLM` relevant to history management
(environment-variable defaults: 20, 50000, false, 128000, 0.8, 2, 3). -/
structure ChatLLMCfg where
  max_messages : Nat
  max_tool_content_length : Nat
  compression_enabled : Bool
  max_context_tokens : Nat
  compression_threshold : ℚ
  keep_initial_turns : Nat
  keep_recent_turns : Nat
deriving DecidableEq, Repr

/-- `ChatLLM._compress_context(messages)`.  The middle-group summarisation
(`_compress_message_group`, an LLM call with internal fallbacks that never
raises) is the explicit parameter `compressOracle`.  The Python slices
`message_groups[-keep_recent:]` and `message_groups[keep_initial:-keep_recent]`
are reproduced including their `keep_recent = 0` behaviour
(`[-0:]` is the whole list, `[a:-0]` is empty). -/
def compressContext (cfg : ChatLLMCfg)
    (compressOracle : List Message → List Message) (messages : List Message) :
    List Message :=
  let messages := compressContextStage1 cfg.max_context_tokens messages
  let systemMessages := messages.filter (fun m => m.role == "system")
  let nonSystem := messages.filter (fun m => !(m.role == "system"))
  let messageGroups := buildMessageGroups nonSystem
  let minRequiredGroups := cfg.keep_initial_turns + cfg.keep_recent_turns
  if messageGroups.length ≤ minRequiredGroups then messages
  else
    let initialGroups := messageGroups.take cfg.keep_initial_turns
    let recentGroups :=
      if cfg.keep_recent_turns = 0 then messageGroups
      else messageGroups.drop (messageGroups.length - cfg.keep_recent_turns)
    let middleGroups :=
      if cfg.keep_recent_turns = 0 then []
      else (messageGroups.drop cfg.keep_initial_turns).take
        (messageGroups.length - cfg.keep_initial_turns - cfg.keep_recent_turns)
    let compressedMiddle := compressOracle middleGroups.flatten
    systemMessages ++ initialGroups.flatten ++ compressedMiddle ++ recentGroups.flatten

/-- Invariant of the `_emergency_truncate` keep-loop: starting from
`system ++ tail` within the target, the loop stays within the target and
only ever re-inserts whole groups (taken from the back of the group list)
between the system messages and the previously kept tail. -/
theorem truncLoop_spec (sys : List Message) (target : Nat) :
    ∀ (gs : List (List Message)) (tail : List Message),
      countTokens (sys ++ tail) ≤ target →
      countTokens (truncLoop sys target gs (sys ++ tail)) ≤ target ∧
        ∃ k, truncLoop sys target gs (sys ++ tail)
          = sys ++ ((gs.take k).reverse.flatten ++ tail) := by
  intro gs
  induction gs with
  | nil =>
      intro tail h
      exact ⟨h, 0, by simp [truncLoop]⟩
  | cons g rest ih =>
      intro tail h
      unfold truncLoop
      by_cases hc : countTokens ((sys ++ tail) ++ g) ≤ target
      · rw [if_pos hc, List.drop_left]
        have harg : sys ++ g ++ tail = sys ++ (g ++ tail) := List.append_assoc sys g tail
        rw [harg]
        have hperm : (sys ++ (g ++ tail)).Perm ((sys ++ tail) ++ g) := by
          rw [List.append_assoc]
          exact (List.perm_append_comm).append_left sys
        have hle : countTokens (sys ++ (g ++ tail)) ≤ target := by
          rw [countTokens_perm hperm]; exact hc
        obtain ⟨hb, k, hk⟩ := ih (g ++ tail) hle
        refine ⟨hb, k + 1, ?_⟩
        rw [hk]
        simp [List.take_succ_cons, List.reverse_cons, List.flatten_append,
          List.append_assoc]
      · rw [if_neg hc]
        exact ⟨h, 0, by simp⟩

/-- `_emergency_truncate` keeps the token estimate within
`int(0.9 * max_context_tokens)` whenever the system messages alone fit the
target, and its result is either the untouched input (already small
enough) or the system messages followed by a suffix of whole message
groups. -/
theorem emergencyTruncate_spec (maxTok : Nat) (msgs : List Message)
    (hsys : countTokens (msgs.filter (fun m => m.role == "system"))
      ≤ emergencyTarget maxTok) :
    countTokens (emergencyTruncate maxTok msgs) ≤ emergencyTarget maxTok ∧
      (emergencyTruncate maxTok msgs = msgs ∨
        ∃ dropped kept,
          buildMessageGroups (msgs.filter (fun m => !(m.role == "system")))
              = dropped ++ kept ∧
            emergencyTruncate maxTok msgs
              = msgs.filter (fun m => m.role == "system") ++ kept.flatten) := by
  unfold emergencyTruncate
  by_cases h : countTokens msgs ≤ emergencyTarget maxTok
  · rw [if_pos h]
    exact ⟨h, Or.inl rfl⟩
  · rw [if_neg h]
    have h0 : countTokens
        (msgs.filter (fun m => m.role == "system") ++ []) ≤ emergencyTarget maxTok := by
      simpa using hsys
    obtain ⟨hb, k, hk⟩ := truncLoop_spec (msgs.filter (fun m => m.role == "system"))
      (emergencyTarget maxTok)
      (buildMessageGroups (msgs.filter (fun m => !(m.role == "system")))).reverse [] h0
    simp only [List.append_nil] at hb hk
    have hsplit :
        ((buildMessageGroups (msgs.filter (fun m => !(m.role == "system")))).reverse.drop k).reverse
            ++ ((buildMessageGroups (msgs.filter (fun m => !(m.role == "system")))).reverse.take k).reverse
          = buildMessageGroups (msgs.filter (fun m => !(m.role == "system"))) := by
      rw [← List.reverse_append, List.take_append_drop, List.reverse_reverse]
    exact ⟨hb, Or.inr
      ⟨((buildMessageGroups (msgs.filter (fun m => !(m.role == "system")))).reverse.drop k).reverse,
       ((buildMessageGroups (msgs.filter (fun m => !(m.role == "system")))).reverse.take k).reverse,
       hsplit.symm, hk⟩⟩

/-- C4 amended: emergency truncation runs only when the token estimate
STRICTLY exceeds `max_context_tokens` (at exactly `max_context_tokens` the
`_compress_context` guard `current_tokens > self.max_context_tokens` is
false); when it runs and the system messages alone fit the 90% target, the
truncated list is within `int(0.9 * max_context_tokens)` tokens and
consists of the system messages plus a suffix of whole message groups. -/
theorem emergency_truncation_strict_overflow (maxTok : Nat) (msgs : List Message)
    (hgt : countTokens msgs > maxTok)
    (hsys : countTokens (msgs.filter (fun m => m.role == "system"))
      ≤ emergencyTarget maxTok) :
    compressContextStage1 maxTok msgs = emergencyTruncate maxTok msgs ∧
      countTokens (emergencyTruncate maxTok msgs) ≤ emergencyTarget maxTok ∧
      ∃ dropped kept,
        buildMessageGroups (msgs.filter (fun m => !(m.role == "system")))
            = dropped ++ kept ∧
          emergencyTruncate maxTok msgs
            = msgs.filter (fun m => m.role == "system") ++ kept.flatten := by
  obtain ⟨hb, hshape⟩ := emergencyTruncate_spec maxTok msgs hsys
  refine ⟨by unfold compressContextStage1; rw [if_pos hgt], hb, ?_⟩
  cases hshape with
  | inr hr => exact hr
  | inl hl =>
      rw [hl] at hb
      have hle : emergencyTarget maxTok ≤ maxTok := by
        unfold emergencyTarget
        omega
      omega

/-- The configuration for the exact-boundary counterexample: compression
enabled, `max_context_tokens = 4`, default threshold `0.8` and keep
turns. -/
def exactMaxCfg : ChatLLMCfg := ⟨20, 50000, true, 4, (4 : ℚ) / 5, 2, 3⟩

/-- A single user message with empty content: exactly `4` estimated
tokens. -/
def exactMaxMsg : Message := ⟨"user", "", false⟩

/-- Counterexample to C4: with compression enabled and the token estimate
EQUAL to `max_context_tokens`, `_should_compress_context` fires (`>=`) but
`_compress_context` performs no emergency truncation (its guard is the
strict `>`), so the message list goes out unchanged, above the claimed 90%
bound. -/
theorem compression_at_exact_max_skips_truncation :
    (shouldCompressContext exactMaxCfg.compression_enabled
        exactMaxCfg.max_context_tokens exactMaxCfg.compression_threshold
        [exactMaxMsg]).1 = true ∧
      countTokens [exactMaxMsg] = exactMaxCfg.max_context_tokens ∧
      compressContext exactMaxCfg (fun l => l) [exactMaxMsg] = [exactMaxMsg] ∧
      ¬ countTokens (compressContext exactMaxCfg (fun l => l) [exactMaxMsg])
          ≤ emergencyTarget exactMaxCfg.max_context_tokens := by
  decide

/-- A user message of 40 ASCII characters: `40 / 4 + 4 = 14` estimated
tokens. -/
def overflowMsg : Message := ⟨"user", "aaaaaaaaaaaaaaaaaaaaaaaaaaaaaaaaaaaaaaaa", false⟩

/-- Witness for the amended C4 at `max_context_tokens = 10`: the single
14-token message strictly overflows, truncation keeps the estimate within
`int(0.9 * 10) = 9` and returns whole groups after the (empty) system
prefix. -/
theorem emergency_truncation_strict_overflow_witness :
    (countTokens [overflowMsg] > 10 ∧
        countTokens ([overflowMsg].filter (fun m => m.role == "system"))
          ≤ emergencyTarget 10) ∧
      (compressContextStage1 10 [overflowMsg] = emergencyTruncate 10 [overflowMsg] ∧
        countTokens (emergencyTruncate 10 [overflowMsg]) ≤ emergencyTarget 10 ∧
        ∃ dropped kept,
          buildMessageGroups ([overflowMsg].filter (fun m => !(m.role == "system")))
              = dropped ++ kept ∧
            emergencyTruncate 10 [overflowMsg]
              = [overflowMsg].filter (fun m => m.role == "system") ++ kept.flatten) :=
  ⟨⟨by decide, by decide⟩,
   emergency_truncation_strict_overflow 10 [overflowMsg] (by decide) (by decide)⟩

/-! ### `_truncate_messages` and the `create_with_tools` retry loop -/

/-- The oversized-tool-content marker appended by `_truncate_messages`:
`"\n\n[内容已截断：原始长度 {len(content)} 字符，已截断至
{max_tool_content_length} 字符]"`. -/
def truncationMarker (origLen keptLen : Nat) : String :=
  "\n\n[内容已截断：原始长度 " ++ toString origLen ++ " 字符，已截断至 "
    ++ toString keptLen ++ " 字符]"

/-- The per-message tool-content truncation applied by
`_truncate_messages` to each forwarded message: a `tool` message whose
content exceeds `max_tool_content_length` characters is cut to the first
`max_tool_content_length` characters with the marker appended; everything
else passes through unchanged. -/
def truncateToolContent (maxToolLen : Nat) (m : Message) : Message :=
  if m.role = "tool" ∧ m.content.length > maxToolLen then
    { m with content := m.content.take maxToolLen
        ++ truncationMarker m.content.length maxToolLen }
  else m

/-- One iteration of the stricter grouping loop of `_truncate_messages`:
unlike `_build_message_groups`, a `tool` message only joins a group whose
head is an `assistant` message WITH `tool_calls`; orphaned tool messages
are removed. -/
def truncGroupStep (st : List (List Message) × List Message) (msg : Message) :
    List (List Message) × List Message :=
  let groups := st.1
  let current := st.2
  if msg.role == "assistant" then
    ((if current ≠ [] then groups ++ [current] else groups), [msg])
  else if msg.role == "tool" then
    match current.head? with
    | some h =>
        if h.role == "assistant" then
          if h.tool_calls then (groups, current ++ [msg]) else (groups, current)
        else (groups, current)
    | none => (groups, current)
  else
    ((if current ≠ [] then groups ++ [current] else groups), [msg])

/-- The grouping pass of the over-limit branch of `_truncate_messages`. -/
def buildTruncGroups (messages : List Message) : List (List Message) :=
  let st := messages.foldl truncGroupStep ([], [])
  if st.2 ≠ [] then st.1 ++ [st.2] else st.1

/-- The `for group in reversed(message_groups)` selection loop of
`_truncate_messages`: keep whole groups from the back while the total
message count stays within `max_messages`; when the next group does not
fit, a group headed by an `assistant` with `tool_calls` is dropped whole,
any other group may be kept partially (`group[:remaining]`); either way the
loop breaks.  (Groups produced by `buildTruncGroups` are never empty; the
impossible empty-group case mirrors Python's `group[0]` by keeping the
result so far.) -/
def selectGroupsLoop (maxMessages : Nat) :
    List (List Message) → Nat → List (List Message) → List (List Message)
  | [], _, result => result
  | g :: rest, totalCount, result =>
      if totalCount + g.length ≤ maxMessages then
        selectGroupsLoop maxMessages rest (totalCount + g.length) (g :: result)
      else
        match g.head? with
        | some h =>
            if h.role = "assistant" ∧ h.tool_calls then result
            else
              let remaining := maxMessages - totalCount
              if remaining > 0 then g.take remaining :: result else result
        | none => result

/-- `ChatLLM._truncate_messages(messages)`: keep system messages, truncate
history to at most `max_messages` non-system messages by whole groups from
the back, and apply the per-message tool-content truncation to every
forwarded non-system message. -/
def truncateMessages (maxMessages maxToolLen : Nat) (messages : List Message) :
    List Message :=
  let systemMessages := messages.filter (fun m => m.role == "system")
  let nonSystem := messages.filter (fun m => !(m.role == "system"))
  if nonSystem.length ≤ maxMessages then
    systemMessages ++ nonSystem.map (truncateToolContent maxToolLen)
  else
    let groups := buildTruncGroups nonSystem
    let kept := (selectGroupsLoop maxMessages groups.reverse 0 []).flatten
    systemMessages ++ kept.map (truncateToolContent maxToolLen)

/-- Outcome of one `client.chat.completions.create` call as seen by the
`except` clauses of `create_with_tools`: success, a `json.JSONDecodeError`,
an exception whose text mentions the context length, or any other
exception. -/
inductive LLMOutcome where
  | success
  | jsonDecodeError
  | contextLengthError
  | otherError
deriving DecidableEq, Repr

/-- The `for attempt in range(max_retries)` loop of `create_with_tools`
(`max_retries = 5`), with the network call abstracted as
`call attempt messages`.  On success the loop breaks (the model returns the
attempt index, the final `self.max_messages` and the message list that was
sent).  A context-length error shrinks `self.max_messages` by 5 (floor 5),
re-truncates the messages and `continue`s — which moves the `for` loop to
its NEXT iteration.  Other errors and JSON decode errors re-raise on the
last attempt (`attempt == max_retries - 1`).  When the loop ends without a
break, `response` is still `None` and the final
`raise ZaeFrameworkException(..., "chat with LLM failed, LLM response：None")`
fires. -/
def retryLoop (maxToolLen : Nat) (call : Nat → List Message → LLMOutcome) :
    List Nat → Nat → List Message → Except String (Nat × Nat × List Message)
  | [], _, _ => .error "chat with LLM failed, LLM response：None"
  | attempt :: rest, maxMessages, messages =>
      match call attempt messages with
      | .success => .ok (attempt, maxMessages, messages)
      | .jsonDecodeError =>
          if attempt = 4 then .error "JSON decode error after 5 attempts"
          else retryLoop maxToolLen call rest maxMessages messages
      | .contextLengthError =>
          let newMax := Nat.max 5 (maxMessages - 5)
          retryLoop maxToolLen call rest newMax
            (truncateMessages newMax maxToolLen messages)
      | .otherError =>
          if attempt = 4 then .error "chat with LLM failed, please check LLM config"
          else retryLoop maxToolLen call rest maxMessages messages

/-- `ChatLLM.create_with_tools(messages, tools)` up to the point where the
response is consumed: clean the messages (modelled as already clean),
optionally compress the context (`_should_compress_context` /
`_compress_context`; the `except`-fallback to `_truncate_messages` is
unreachable because `_compress_message_group` swallows its own failures),
then run the 5-attempt retry loop.  When compression is NOT triggered the
comment in the source applies verbatim: \"如果不需要压缩，保留完整消息，
不做任何截断处理\" — the messages are sent unchanged, without any
tool-content truncation. -/
def createWithTools (cfg : ChatLLMCfg)
    (compressOracle : List Message → List Message)
    (call : Nat → List Message → LLMOutcome) (messages : List Message) :
    Except String (Nat × Nat × List Message) :=
  let sc := shouldCompressContext cfg.compression_enabled cfg.max_context_tokens
    cfg.compression_threshold messages
  let prepared := if sc.1 then compressContext cfg compressOracle messages else messages
  retryLoop cfg.max_tool_content_length call [0, 1, 2, 3, 4] cfg.max_messages prepared

/-- The default client configuration (environment defaults; compression
disabled). -/
def defaultCfg : ChatLLMCfg := ⟨20, 50000, false, 128000, (4 : ℚ) / 5, 2, 3⟩

/-- Counterexample to C6: with every attempt failing on a context-length
error, `create_with_tools` exhausts its 5-attempt budget — the shrink
branch ends in `continue` inside `for attempt in range(5)`, which advances
`attempt` — and the call fails; the retries are NOT outside the budget. -/
theorem context_length_retries_exhaust_budget :
    createWithTools defaultCfg (fun l => l) (fun _ _ => LLMOutcome.contextLengthError)
        [⟨"user", "hi", false⟩]
      = .error "chat with LLM failed, LLM response：None" := by
  decide

/-- C6 amended: a context-length failure shrinks `max_messages` by the
fixed decrement 5 (never below 5), re-truncates the history with the new
budget and retries — but the retry happens on the NEXT loop attempt, so it
consumes the budget: five consecutive context-length failures exhaust
`create_with_tools` and the final `response is None` error is raised. -/
theorem context_length_retry_consumes_attempt
    (maxToolLen : Nat) (call : Nat → List Message → LLMOutcome)
    (attempt : Nat) (rest : List Nat) (maxMessages : Nat) (messages : List Message)
    (h : call attempt messages = LLMOutcome.contextLengthError) :
    retryLoop maxToolLen call (attempt :: rest) maxMessages messages
        = retryLoop maxToolLen call rest (Nat.max 5 (maxMessages - 5))
            (truncateMessages (Nat.max 5 (maxMessages - 5)) maxToolLen messages) ∧
      retryLoop maxToolLen (fun _ _ => LLMOutcome.contextLengthError) [0, 1, 2, 3, 4]
          maxMessages messages
        = .error "chat with LLM failed, LLM response：None" := by
  constructor
  · conv_lhs => unfold retryLoop
    rw [h]
  · simp [retryLoop]

/-- Witness for the amended C6 at a concrete state (budget 20, empty
history, every call failing on context length). -/
theorem context_length_retry_consumes_attempt_witness :
    ((fun (_ : Nat) (_ : List Message) => LLMOutcome.contextLengthError) 0 []
        = LLMOutcome.contextLengthError) ∧
      (retryLoop 50000 (fun _ _ => LLMOutcome.contextLengthError) (0 :: [1, 2, 3, 4]) 20 []
          = retryLoop 50000 (fun _ _ => LLMOutcome.contextLengthError) [1, 2, 3, 4]
              (Nat.max 5 (20 - 5)) (truncateMessages (Nat.max 5 (20 - 5)) 50000 []) ∧
        retryLoop 50000 (fun _ _ => LLMOutcome.contextLengthError) [0, 1, 2, 3, 4] 20 []
          = .error "chat with LLM failed, LLM response：None") :=
  ⟨rfl, context_length_retry_consumes_attempt 50000
    (fun _ _ => LLMOutcome.contextLengthError) 0 [1, 2, 3, 4] 20 [] rfl⟩

/-- A tool message whose 4-character content exceeds the 3-character cap of
`cfgSmallToolLimit`. -/
def toolMsgOversized : Message := ⟨"tool", "abcd", false⟩

/-- The default configuration with `max_tool_content_length = 3`. -/
def cfgSmallToolLimit : ChatLLMCfg := ⟨20, 3, false, 128000, (4 : ℚ) / 5, 2, 3⟩

/-- Counterexample to C7: on the default path (compression disabled, hence
`_should_compress_context` false) `create_with_tools` sends the messages
verbatim — the oversized tool content reaches the model untruncated and
unmarked; `_truncate_messages` is simply never applied. -/
theorem oversized_tool_content_sent_untruncated :
    toolMsgOversized.content.length > cfgSmallToolLimit.max_tool_content_length ∧
      createWithTools cfgSmallToolLimit (fun l => l) (fun _ _ => LLMOutcome.success)
          [toolMsgOversized]
        = .ok (0, 20, [toolMsgOversized]) := by
  decide

/-- Invariant transfer of one `truncGroupStep`. -/
theorem truncGroupStep_mem (Q : Message → Prop)
    (st : List (List Message) × List Message) (msg : Message)
    (hg : ∀ g ∈ st.1, ∀ x ∈ g, Q x) (hc : ∀ x ∈ st.2, Q x) (hm : Q msg) :
    (∀ g ∈ (truncGroupStep st msg).1, ∀ x ∈ g, Q x) ∧
      (∀ x ∈ (truncGroupStep st msg).2, Q x) := by
  obtain ⟨groups, current⟩ := st
  unfold truncGroupStep
  by_cases ha : msg.role == "assistant"
  · simp only [ha, if_true]
    constructor
    · intro g hgmem
      by_cases hcur : current ≠ []
      · rw [if_pos hcur] at hgmem
        rcases List.mem_append.mp hgmem with h1 | h2
        · exact hg g h1
        · rw [List.mem_singleton] at h2
          subst h2
          exact hc
      · rw [if_neg hcur] at hgmem
        exact hg g hgmem
    · intro x hx
      rw [List.mem_singleton] at hx
      subst hx
      exact hm
  · by_cases ht : msg.role == "tool"
    · simp only [ha, ht, if_false, if_true]
      cases hhd : current.head? with
      | none => exact ⟨hg, hc⟩
      | some h =>
          by_cases hr : h.role == "assistant"
          · simp only [hr, if_true]
            by_cases htc : h.tool_calls
            · simp only [htc, if_true]
              refine ⟨hg, ?_⟩
              intro x hx
              rcases List.mem_append.mp hx with h1 | h2
              · exact hc x h1
              · rw [List.mem_singleton] at h2
                subst h2
                exact hm
            · simp only [htc, if_false]
              exact ⟨hg, hc⟩
          · simp only [hr, if_false]
            exact ⟨hg, hc⟩
    · have ha' : (msg.role == "assistant") = false := by simpa using ha
      have ht' : (msg.role == "tool") = false := by simpa using ht
      simp only [ha', ht', Bool.false_eq_true, if_false]
      constructor
      · intro g hgmem
        by_cases hcur : current ≠ []
        · rw [if_pos hcur] at hgmem
          rcases List.mem_append.mp hgmem with h1 | h2
          · exact hg g h1
          · rw [List.mem_singleton] at h2
            subst h2
            exact hc
        · rw [if_neg hcur] at hgmem
          exact hg g hgmem
      · intro x hx
        rw [List.mem_singleton] at hx
        subst hx
        exact hm

theorem truncGroupStep_fold_mem (Q : Message → Prop) :
    ∀ (msgs : List Message) (st : List (List Message) × List Message),
      (∀ g ∈ st.1, ∀ x ∈ g, Q x) → (∀ x ∈ st.2, Q x) → (∀ x ∈ msgs, Q x) →
      (∀ g ∈ (msgs.foldl truncGroupStep st).1, ∀ x ∈ g, Q x) ∧
        (∀ x ∈ (msgs.foldl truncGroupStep st).2, Q x) := by
  intro msgs
  induction msgs with
  | nil => intro st hg hc _; exact ⟨hg, hc⟩
  | cons hd tl ih =>
      intro st hg hc hall
      have hstep := truncGroupStep_mem Q st hd hg hc (hall hd (List.mem_cons_self hd tl))
      exact ih (truncGroupStep st hd) hstep.1 hstep.2
        (fun x hx => hall x (List.mem_cons_of_mem hd hx))

/-- Every message inside a group built by `_truncate_messages` comes from
its input list. -/
theorem buildTruncGroups_mem (msgs : List Message) :
    ∀ g ∈ buildTruncGroups msgs, ∀ x ∈ g, x ∈ msgs := by
  have h := truncGroupStep_fold_mem (fun x => x ∈ msgs) msgs ([], [])
    (by intro g hgmem; exact absurd hgmem (List.not_mem_nil g))
    (by intro x hx; exact absurd hx (List.not_mem_nil x))
    (fun x hx => hx)
  unfold buildTruncGroups
  by_cases hc : (msgs.foldl truncGroupStep ([], [])).2 ≠ []
  · rw [if_pos hc]
    intro g hgmem
    rcases List.mem_append.mp hgmem with h1 | h2
    · exact h.1 g h1
    · rw [List.mem_singleton] at h2
      subst h2
      exact h.2
  · rw [if_neg hc]
    exact h.1

/-- Every message kept by the group-selection loop comes from the supplied
groups or the accumulator. -/
theorem selectGroupsLoop_mem (maxM : Nat) (Q : Message → Prop) :
    ∀ (gs : List (List Message)) (total : Nat) (acc : List (List Message)),
      (∀ g ∈ gs, ∀ x ∈ g, Q x) → (∀ g ∈ acc, ∀ x ∈ g, Q x) →
      ∀ g ∈ selectGroupsLoop maxM gs total acc, ∀ x ∈ g, Q x := by
  intro gs
  induction gs with
  | nil => intro total acc _ hacc; exact hacc
  | cons g rest ih =>
      intro total acc hgs hacc
      unfold selectGroupsLoop
      by_cases hfit : total + g.length ≤ maxM
      · rw [if_pos hfit]
        refine ih (total + g.length) (g :: acc)
          (fun g' hg' => hgs g' (List.mem_cons_of_mem g hg')) ?_
        intro g' hg'
        rcases List.mem_cons.mp hg' with h1 | h2
        · rw [h1]
          exact hgs g (List.mem_cons_self g rest)
        · exact hacc g' h2
      · rw [if_neg hfit]
        cases hhd : g.head? with
        | none => exact hacc
        | some h =>
            dsimp only
            by_cases hrole : h.role = "assistant" ∧ h.tool_calls
            · rw [if_pos hrole]
              exact hacc
            · rw [if_neg hrole]
              by_cases hrem : maxM - total > 0
              · rw [if_pos hrem]
                intro g' hg'
                rcases List.mem_cons.mp hg' with h1 | h2
                · rw [h1]
                  intro x hx
                  exact hgs g (List.mem_cons_self g rest) x (List.take_subset _ _ hx)
                · exact hacc g' h2
              · rw [if_neg hrem]
                exact hacc

/-- C7 amended: whenever `_truncate_messages` IS applied (the
compression-failure fallback and the context-length retry path), every
message it forwards is the tool-content truncation of one of its input
messages, and that truncation cuts any oversized tool content to
`max_tool_content_length` characters with the marker (stating original and
kept lengths) appended.  On the default send path (see the counterexample)
`_truncate_messages` is not applied at all. -/
theorem truncate_messages_tool_content (maxMessages maxToolLen : Nat)
    (messages : List Message) :
    (∀ m ∈ truncateMessages maxMessages maxToolLen messages,
        ∃ m₀, m₀ ∈ messages ∧ m = truncateToolContent maxToolLen m₀) ∧
      ∀ m₀ : Message, m₀.role = "tool" → m₀.content.length > maxToolLen →
        (truncateToolContent maxToolLen m₀).content
          = m₀.content.take maxToolLen
            ++ truncationMarker m₀.content.length maxToolLen := by
  constructor
  · intro m hm
    unfold truncateMessages at hm
    have hsysmem : ∀ x ∈ messages.filter (fun m => m.role == "system"),
        ∃ m₀, m₀ ∈ messages ∧ x = truncateToolContent maxToolLen m₀ := by
      intro x hx
      refine ⟨x, (List.mem_filter.mp hx).1, ?_⟩
      have hrole : x.role = "system" := by
        have := (List.mem_filter.mp hx).2
        exact eq_of_beq this
      unfold truncateToolContent
      rw [if_neg]
      intro hcase
      rw [hrole] at hcase
      exact absurd hcase.1 (by decide)
    by_cases hlen : (messages.filter (fun m => !(m.role == "system"))).length ≤ maxMessages
    · rw [if_pos hlen] at hm
      rcases List.mem_append.mp hm with h1 | h2
      · exact hsysmem m h1
      · obtain ⟨m₀, hm₀, hmap⟩ := List.mem_map.mp h2
        exact ⟨m₀, List.mem_of_mem_filter hm₀, hmap.symm⟩
    · rw [if_neg hlen] at hm
      rcases List.mem_append.mp hm with h1 | h2
      · exact hsysmem m h1
      · obtain ⟨m₀, hm₀, hmap⟩ := List.mem_map.mp h2
        refine ⟨m₀, ?_, hmap.symm⟩
        obtain ⟨g, hgmem, hxg⟩ := List.mem_flatten.mp hm₀
        have hnon : m₀ ∈ messages.filter (fun m => !(m.role == "system")) := by
          refine selectGroupsLoop_mem maxMessages
            (fun x => x ∈ messages.filter (fun m => !(m.role == "system")))
            (buildTruncGroups (messages.filter (fun m => !(m.role == "system")))).reverse
            0 [] ?_ ?_ g hgmem m₀ hxg
          · intro g' hg'
            exact buildTruncGroups_mem _ g' (List.mem_reverse.mp hg')
          · intro g' hg'
            exact absurd hg' (List.not_mem_nil g')
        exact List.mem_of_mem_filter hnon
  · intro m₀ hrole hlen
    unfold truncateToolContent
    rw [if_pos ⟨hrole, hlen⟩]

/-- Witness for the amended C7: a concrete history with one system, one
assistant-with-tools and one oversized tool message. -/
theorem truncate_messages_tool_content_witness :
    (∀ m ∈ truncateMessages 20 3
        [⟨"system", "s", false⟩, ⟨"assistant", "a", true⟩, ⟨"tool", "abcd", false⟩],
        ∃ m₀, m₀ ∈ [(⟨"system", "s", false⟩ : Message), ⟨"assistant", "a", true⟩,
            ⟨"tool", "abcd", false⟩] ∧ m = truncateToolContent 3 m₀) ∧
      ((⟨"tool", "abcd", false⟩ : Message).role = "tool" ∧
          (⟨"tool", "abcd", false⟩ : Message).content.length > 3 ∧
          (truncateToolContent 3 ⟨"tool", "abcd", false⟩).content
            = ("abcd" : String).take 3 ++ truncationMarker 4 3) :=
  ⟨(truncate_messages_tool_content 20 3 _).1,
   ⟨rfl, by decide,
    (truncate_messages_tool_content 20 3
      [⟨"system", "s", false⟩, ⟨"assistant", "a", true⟩, ⟨"tool", "abcd", false⟩]).2
      ⟨"tool", "abcd", false⟩ rfl (by decide)⟩⟩

/-! ### `check_and_fix_tool_call_params` (tool-argument repair) -/

/-- The `for attempt in range(3)` repair loop of
`check_and_fix_tool_call_params`, acting on the argument string of
`tool_calls[0]` only.  `jsonValid` models `json.loads` succeeding (the
oracles used in concrete runs agree with real JSON on the strings they are
applied to); `fix attempt args` models the repair `chat_to_llm` call of
that attempt (`none` = the call raised).  When the fix result parses the
arguments are replaced and the loop breaks; otherwise, on the last attempt
(`attempt == 2`) the arguments are replaced by the empty JSON object
`"\x7b\x7d"`; the method never raises. -/
def fixArgsLoop (jsonValid : String → Bool) (fix : Nat → String → Option String)
    (args : String) : List Nat → String
  | [] => args
  | attempt :: rest =>
      if jsonValid args then args
      else
        match fix attempt args with
        | some fixedArguments =>
            if jsonValid fixedArguments then fixedArguments
            else if attempt = 2 then "\x7b\x7d"
            else fixArgsLoop jsonValid fix args rest
        | none =>
            if attempt = 2 then "\x7b\x7d"
            else fixArgsLoop jsonValid fix args rest

/-- `ChatLLM.check_and_fix_tool_call_params(response)`, with the response's
tool calls represented by their argument strings.  The guard
`if response.choices[0].message.tool_calls:` skips empty lists; the loop
body reads `response.choices[0].message.tool_calls[0]` — only the FIRST
tool call — on every attempt. -/
def checkAndFixToolCallParams (jsonValid : String → Bool)
    (fix : Nat → String → Option String) (toolCalls : List String) : List String :=
  match toolCalls with
  | [] => []
  | first :: rest => fixArgsLoop jsonValid fix first [0, 1, 2] :: rest

/-- One failed repair attempt advances the loop (or falls back to the empty
object on attempt 2). -/
theorem fixArgsLoop_fail_step (jsonValid : String → Bool)
    (fix : Nat → String → Option String) (args : String) (attempt : Nat)
    (rest : List Nat) (hv : jsonValid args = false)
    (hfa : ∀ r, fix attempt args = some r → jsonValid r = false) :
    fixArgsLoop jsonValid fix args (attempt :: rest)
      = if attempt = 2 then "\x7b\x7d" else fixArgsLoop jsonValid fix args rest := by
  unfold fixArgsLoop
  rw [hv]
  simp only [Bool.false_eq_true, if_false]
  cases h0 : fix attempt args with
  | none =>
      dsimp only
      by_cases ha2 : attempt = 2
      · rw [if_pos ha2, if_pos ha2]
      · rw [if_neg ha2, if_neg ha2]
        conv_lhs => unfold fixArgsLoop
        rw [hv]
        simp only [Bool.false_eq_true, if_false]
  | some r =>
      dsimp only
      rw [hfa r h0]
      simp only [Bool.false_eq_true, if_false]
      by_cases ha2 : attempt = 2
      · rw [if_pos ha2, if_pos ha2]
      · rw [if_neg ha2, if_neg ha2]
        conv_lhs => unfold fixArgsLoop
        rw [hv]
        simp only [Bool.false_eq_true, if_false]

/-- Counterexample to C5: with two tool calls — the first with valid
arguments, the second with the unparsable string `"bad"` — the repair loop
parses only `tool_calls[0]`, breaks immediately, and the second call's
arguments are neither repaired nor replaced by the empty object.  (The
concrete `jsonValid` oracle agrees with `json.loads` on the two strings
involved: `"\x7b\x7d"` parses, `"bad"` does not.) -/
theorem second_tool_call_args_never_checked :
    checkAndFixToolCallParams (fun s => s == "\x7b\x7d") (fun _ _ => none)
        ["\x7b\x7d", "bad"] = ["\x7b\x7d", "bad"] ∧
      (fun (s : String) => s == "\x7b\x7d") "bad" = false := by
  decide

/-- C5 amended: only the FIRST tool call's arguments are parsed and
repaired.  If they parse, nothing changes; if they do not and every repair
attempt fails (the repair call raises or returns an unparsable string),
after 3 attempts the first call's arguments become the empty JSON object
and execution continues without raising; a repair success on the first
attempt installs the repaired string.  All later tool calls are left
untouched in every case. -/
theorem check_and_fix_first_call_only (jsonValid : String → Bool)
    (fix : Nat → String → Option String) (first : String) (rest : List String) :
    (jsonValid first = true →
        checkAndFixToolCallParams jsonValid fix (first :: rest) = first :: rest) ∧
      (jsonValid first = false →
        (∀ attempt, attempt < 3 → ∀ r, fix attempt first = some r → jsonValid r = false) →
        checkAndFixToolCallParams jsonValid fix (first :: rest) = "\x7b\x7d" :: rest) ∧
      (∀ r, jsonValid first = false → fix 0 first = some r → jsonValid r = true →
        checkAndFixToolCallParams jsonValid fix (first :: rest) = r :: rest) ∧
      (checkAndFixToolCallParams jsonValid fix (first :: rest)).tail = rest := by
  refine ⟨?_, ?_, ?_, ?_⟩
  · intro hv
    unfold checkAndFixToolCallParams
    dsimp only
    unfold fixArgsLoop
    simp [hv]
  · intro hv hfail
    unfold checkAndFixToolCallParams
    dsimp only
    rw [fixArgsLoop_fail_step jsonValid fix first 0 [1, 2] hv
        (hfail 0 (by omega)),
      if_neg (by omega),
      fixArgsLoop_fail_step jsonValid fix first 1 [2] hv (hfail 1 (by omega)),
      if_neg (by omega),
      fixArgsLoop_fail_step jsonValid fix first 2 [] hv (hfail 2 (by omega)),
      if_pos rfl]
  · intro r hv h0 hr
    unfold checkAndFixToolCallParams
    dsimp only
    unfold fixArgsLoop
    simp [hv, h0, hr]
  · unfold checkAndFixToolCallParams
    rfl

/-- Witness for the amended C5: first call `"not json"` unparsable, every
repair failing — dispatched with the empty object; second call untouched.
(`jsonValid` here agrees with `json.loads` on the strings involved.) -/
theorem check_and_fix_first_call_only_witness :
    ((fun (s : String) => s == "\x7b\x7d") "not json" = false ∧
        (∀ attempt, attempt < 3 → ∀ r,
          (fun (_ : Nat) (_ : String) => (none : Option String)) attempt "not json" = some r →
          (fun (s : String) => s == "\x7b\x7d") r = false)) ∧
      checkAndFixToolCallParams (fun s => s == "\x7b\x7d")
          (fun _ _ => none) ["not json", "ok"] = "\x7b\x7d" :: ["ok"] :=
  ⟨⟨by decide, fun _ _ r h => absurd h (by simp)⟩,
   (check_and_fix_first_call_only (fun s => s == "\x7b\x7d") (fun _ _ => none)
      "not json" ["ok"]).2.1 (by decide) (fun _ _ r h => absurd h (by simp))⟩

/-! ## `TaskActorAgent.act` (`src/app/manus/agent/actor/task_actor_agent.py`)

`act(question, step_index)` first marks the step `in_progress` (outside the
`try`, so an invalid index propagates), then runs `self.execute(...)`
(modelled by `executeResult`: `.error e` is an exception with text
`str(e)`); on success, if the step is still `in_progress` it is marked
`completed` with `str(result)` as notes, then `update_fact` issues an LLM
call (modelled by `factsResult`) whose result overwrites `plan.facts`.
Any exception inside the `try` is absorbed: the step is marked `blocked`
with the exception text as notes and the text is returned.  The history
appends and the plan-progress event publication carry no plan state and
are omitted.  In the embedding, `mark_step` can only fail on an invalid
index, which is impossible after the initial mark succeeded, so those
propagating branches are unreachable. -/
def TaskActorAgent.act (processText : String → String × String)
    (executeResult : Except String String) (factsResult : Except String String)
    (p : Plan) (stepIndex : Nat) : Except String (Plan × String) :=
  match p.mark_step processText stepIndex (some "in_progress") none with
  | .error e => .error e
  | .ok p1 =>
      match executeResult with
      | .ok result =>
          let marked :=
            if (pyGet p1.step_statuses (p1.steps.getD stepIndex "")).getD ""
                = "in_progress" then
              p1.mark_step processText stepIndex (some "completed") (some result)
            else .ok p1
          match marked with
          | .error e => .error e
          | .ok p2 =>
              match factsResult with
              | .ok newFacts => .ok ({ p2 with facts := newFacts }, result)
              | .error e =>
                  match p2.mark_step processText stepIndex (some "blocked") (some e) with
                  | .ok p3 => .ok (p3, e)
                  | .error e2 => .error e2
      | .error e =>
          match p1.mark_step processText stepIndex (some "blocked") (some e) with
          | .ok p2 => .ok (p2, e)
          | .error e2 => .error e2

/-- C8: when `execute` raises inside `act`, the step is marked `blocked`,
the exception text (as rewritten by the workspace path processing that
`mark_step` applies to all notes) is stored as the step's notes, and the
exception text is returned as the step result. -/
theorem TaskActorAgent.act_exception_blocks_step
    (processText : String → String × String) (factsResult : Except String String)
    (p : Plan) (i : Nat) (e : String) (hi : i < p.steps.length) :
    ∃ q, TaskActorAgent.act processText (.error e) factsResult p i = .ok (q, e) ∧
      pyGet q.step_statuses (p.steps.getD i "") = some "blocked" ∧
      pyGet q.step_notes (p.steps.getD i "") = some (processText e).1 := by
  have hnot : ¬ i ≥ p.steps.length := by omega
  unfold TaskActorAgent.act Plan.mark_step
  simp only [if_neg hnot]
  refine ⟨_, rfl, ?_, ?_⟩
  · rw [pyGet_dictSet, if_pos rfl]
  · rw [pyGet_dictSet, if_pos rfl]

/-- Witness for C8 on a concrete plan and exception. -/
theorem TaskActorAgent.act_exception_blocks_step_witness :
    1 < (Plan.init "t" (some ["s1", "s2"]) none).steps.length ∧
      ∃ q, TaskActorAgent.act (fun s => (s, "")) (.error "boom") (.ok "facts")
            (Plan.init "t" (some ["s1", "s2"]) none) 1 = .ok (q, "boom") ∧
        pyGet q.step_statuses ((Plan.init "t" (some ["s1", "s2"]) none).steps.getD 1 "")
            = some "blocked" ∧
        pyGet q.step_notes ((Plan.init "t" (some ["s1", "s2"]) none).steps.getD 1 "")
            = some ((fun (s : String) => (s, "")) "boom").1 :=
  ⟨by decide,
   TaskActorAgent.act_exception_blocks_step (fun s => (s, "")) (.ok "facts")
     (Plan.init "t" (some ["s1", "s2"]) none) 1 "boom" (by decide)⟩

end CoSight
